import Mathlib

/-!
Verification of the Fadecandy OPC server device registry and hotplug
lifecycle manager (src/server/src/fcserver.cpp).

The embedding models the registry state (the mUSBDevices vector) as a
list of device records, the external driver behavior (FCDevice and
EnttecDMXDevice probe, open, probeAfterOpening, matchConfiguration) as a
structure of pure functions, and each registry operation as a function
from state to state together with a trace of the externally visible
calls it performs (construction, config consultation, color correction,
registration, destruction, message writes).

The poll-mode removal loop of usbHotplugPoll erases from the vector
while iterating with an end iterator captured before the erase; vector
iterators are modelled as raw slot indices into the buffer, so that an
access at a slot index at or past the current size is an out-of-bounds
access, modelled as the undefined outcome.
-/

namespace FCServer

/-- The two concrete driver variants probed by usbDeviceArrived, in the
order the source tries them: FCDevice first, then EnttecDMXDevice. -/
inductive DriverKind where
  | fc
  | dmx
deriving DecidableEq, Repr

/-- One registered device object: the driver variant that constructed it
and the native libusb_device handle returned by getDevice(). Handles are
modelled as natural numbers. -/
structure USBDevice where
  kind : DriverKind
  handle : Nat
deriving DecidableEq, Repr

/-- The behavior of the external driver classes, as pure functions of the
driver variant and the native handle: static probe of each variant,
the result code of open(), the result of probeAfterOpening(), and
matchConfiguration against a configuration entry of type alpha. -/
structure Env (α : Type) where
  probeFC : Nat → Bool
  probeDMX : Nat → Bool
  openRes : DriverKind → Nat → Int
  probeAfterOpening : DriverKind → Nat → Bool
  matchConfiguration : DriverKind → Nat → α → Bool

/-- Externally visible calls made by the registry, recorded as a trace. -/
inductive Event where
  | constructed (k : DriverKind) (h : Nat)
  | consulted (i : Nat)
  | colorCorrected (h : Nat)
  | registered (h : Nat)
  | destroyed (h : Nat)
  | wroteMessage (h : Nat)
  | arrivedCall (h : Nat)
  | leftCall (h : Nat)
deriving DecidableEq, Repr

/-- The driver selection chain of usbDeviceArrived, lines 153-161:
FCDevice.probe is tried first, then EnttecDMXDevice.probe; if neither
accepts the handle no driver instance is constructed. -/
def probeKind {α : Type} (env : Env α) (device : Nat) : Option DriverKind :=
  if env.probeFC device then some DriverKind.fc
  else if env.probeDMX device then some DriverKind.dmx
  else none

/-- The configuration scan loop of usbDeviceArrived, lines 191-203:
walks the devices array in order, returning the index and entry of the
first one the predicate accepts together with the list of indices that
were consulted. The second argument is the index of the first entry of
the remaining list. -/
def scanConfigs {α : Type} (p : α → Bool) : List α → Nat → Option (Nat × α) × List Nat
  | [], _ => (none, [])
  | c :: rest, i =>
      if p c then (some (i, c), [i])
      else ((scanConfigs p rest (i + 1)).1, i :: (scanConfigs p rest (i + 1)).2)

/-- FCServer.usbDeviceArrived, lines 145-209: probe the driver chain,
construct the accepted variant, open it, probe after opening, and scan
the configured devices array for a first match; on success the device is
color corrected and appended to mUSBDevices, on any failure after
construction the instance is destroyed and the registry is unchanged. -/
def usbDeviceArrived {α : Type} (env : Env α) (cfg : List α) (devs : List USBDevice)
    (device : Nat) : List USBDevice × List Event :=
  match probeKind env device with
  | none => (devs, [])
  | some k =>
      if env.openRes k device < 0 then
        (devs, [Event.constructed k device, Event.destroyed device])
      else if env.probeAfterOpening k device then
        match (scanConfigs (env.matchConfiguration k device) cfg 0).1 with
        | some _ =>
            (devs ++ [⟨k, device⟩],
             Event.constructed k device
               :: ((scanConfigs (env.matchConfiguration k device) cfg 0).2.map Event.consulted
                   ++ [Event.colorCorrected device, Event.registered device]))
        | none =>
            (devs,
             Event.constructed k device
               :: ((scanConfigs (env.matchConfiguration k device) cfg 0).2.map Event.consulted
                   ++ [Event.destroyed device]))
      else
        (devs, [Event.constructed k device, Event.destroyed device])

/-- FCServer.usbDeviceLeft(libusb_device *), lines 211-224: scan
mUSBDevices in registration order, erase and destroy the first entry
whose getDevice() equals the handle, then break; a no-op when no entry
matches. -/
def usbDeviceLeft (devs : List USBDevice) (device : Nat) : List USBDevice × List Event :=
  match devs with
  | [] => ([], [])
  | d :: rest =>
      if d.handle = device then (rest, [Event.destroyed device])
      else ((usbDeviceLeft rest device).1.cons d, (usbDeviceLeft rest device).2)

/-- FCServer.cbMessage, lines 111-126: under the event mutex, write the
message to every device of mUSBDevices in registration order. -/
def cbMessage : List USBDevice → List Event
  | [] => []
  | d :: rest => Event.wroteMessage d.handle :: cbMessage rest

/-- The added-devices loop of usbHotplugPoll, lines 277-290: for each
enumerated handle in order, scan the current mUSBDevices; only when no
current entry has that handle is usbDeviceArrived invoked. -/
def pollAttach {α : Type} (env : Env α) (cfg : List α) :
    List USBDevice → List Nat → List USBDevice × List Event
  | devs, [] => (devs, [])
  | devs, h :: rest =>
      if devs.all (fun d => d.handle != h) then
        ((pollAttach env cfg (usbDeviceArrived env cfg devs h).1 rest).1,
         Event.arrivedCall h
           :: ((usbDeviceArrived env cfg devs h).2
               ++ (pollAttach env cfg (usbDeviceArrived env cfg devs h).1 rest).2))
      else
        pollAttach env cfg devs rest

/-- The removed-devices loop of usbHotplugPoll, lines 293-307. Vector
iterators are raw slot indices; the end iterator is captured before the
loop, so the fuel argument is the distance from the current slot to the
captured end. Erasing an entry mid-loop shifts later entries left while
the slot index and captured end stay put, so after any erase the loop
advances past the shifted entry and finally reads slots at or past the
shrunk size: such a read is out of bounds (iterators at or after an
erase point are invalidated) and yields none. -/
def pollRemove (enumL : List Nat) : Nat → List USBDevice → Nat →
    Option (List USBDevice) × List Event
  | 0, devs, _ => (some devs, [])
  | fuel + 1, devs, i =>
      match devs[i]? with
      | none => (none, [])
      | some d =>
          if enumL.all (fun x => x != d.handle) then
            ((pollRemove enumL fuel (devs.eraseIdx i) (i + 1)).1,
             Event.leftCall d.handle
               :: Event.destroyed d.handle
               :: (pollRemove enumL fuel (devs.eraseIdx i) (i + 1)).2)
          else
            pollRemove enumL fuel devs (i + 1)

/-- Result of one usbHotplugPoll step: enumFail when
libusb_get_device_list returned a negative size (the function returns
false), ok with the new registry state when every access was in bounds
(the function returns true), and undef when the removal loop performed
an out-of-bounds access. -/
inductive PollOutcome where
  | enumFail
  | ok (devs : List USBDevice) (tr : List Event)
  | undef (tr : List Event)
deriving DecidableEq, Repr

/-- FCServer.usbHotplugPoll, lines 255-312: enumerate (none models a
negative libusb_get_device_list result), then under the lock run the
added-devices loop followed by the removed-devices loop. -/
def usbHotplugPoll {α : Type} (env : Env α) (cfg : List α) (devs : List USBDevice)
    (enumRes : Option (List Nat)) : PollOutcome :=
  match enumRes with
  | none => PollOutcome.enumFail
  | some l =>
      match pollRemove l (pollAttach env cfg devs l).1.length (pollAttach env cfg devs l).1 0 with
      | (none, tr) => PollOutcome.undef ((pollAttach env cfg devs l).2 ++ tr)
      | (some devs2, tr) => PollOutcome.ok devs2 ((pollAttach env cfg devs l).2 ++ tr)

/-- Result of running the poll thread against a finite prefix of
enumeration outcomes: still running when the prefix is exhausted,
terminated when a poll step returned false, undef when a poll step made
an out-of-bounds access. -/
inductive ThreadResult where
  | running (devs : List USBDevice)
  | terminated (devs : List USBDevice)
  | undef (devs : List USBDevice)
deriving DecidableEq, Repr

/-- FCServer.usbHotplugThreadFunc, lines 314-321: repeat usbHotplugPoll
while it returns true; the loop body is driven here by a finite list of
enumeration outcomes supplied by the platform. -/
def usbHotplugThreadFunc {α : Type} (env : Env α) (cfg : List α) :
    List (Option (List Nat)) → List USBDevice → ThreadResult
  | [], devs => ThreadResult.running devs
  | e :: rest, devs =>
      match usbHotplugPoll env cfg devs e with
      | PollOutcome.enumFail => ThreadResult.terminated devs
      | PollOutcome.ok devs2 _ => usbHotplugThreadFunc env cfg rest devs2
      | PollOutcome.undef _ => ThreadResult.undef devs

/-- One externally triggered registry operation: a hotplug arrival
callback, a hotplug left callback, or one poll step with its enumeration
outcome. -/
inductive Op where
  | arrive (h : Nat)
  | leave (h : Nat)
  | poll (enumRes : Option (List Nat))

/-- Run a sequence of registry operations from a starting state; none
when a poll step fails or makes an out-of-bounds access. -/
def runOps {α : Type} (env : Env α) (cfg : List α) :
    List Op → List USBDevice → Option (List USBDevice)
  | [], devs => some devs
  | Op.arrive h :: rest, devs => runOps env cfg rest (usbDeviceArrived env cfg devs h).1
  | Op.leave h :: rest, devs => runOps env cfg rest (usbDeviceLeft devs h).1
  | Op.poll e :: rest, devs =>
      match usbHotplugPoll env cfg devs e with
      | PollOutcome.ok devs2 _ => runOps env cfg rest devs2
      | _ => none

/-- Registry states reachable by arrival events whose handle is not
currently registered (native hotplug delivers at most one arrival per
physical attachment), left events, and poll steps that complete without
an out-of-bounds access. -/
inductive ReachG {α : Type} (env : Env α) (cfg : List α) : List USBDevice → Prop where
  | nil : ReachG env cfg []
  | arrive (devs : List USBDevice) (h : Nat) :
      ReachG env cfg devs → h ∉ devs.map USBDevice.handle →
      ReachG env cfg (usbDeviceArrived env cfg devs h).1
  | leave (devs : List USBDevice) (h : Nat) :
      ReachG env cfg devs → ReachG env cfg (usbDeviceLeft devs h).1
  | poll (devs devs2 : List USBDevice) (tr : List Event) (e : Option (List Nat)) :
      ReachG env cfg devs → usbHotplugPoll env cfg devs e = PollOutcome.ok devs2 tr →
      ReachG env cfg devs2

/-- A driver environment in which every handle is an FCDevice, open()
succeeds and every configuration entry matches. -/
def envAll : Env Unit where
  probeFC := fun _ => true
  probeDMX := fun _ => false
  openRes := fun _ _ => 0
  probeAfterOpening := fun _ _ => true
  matchConfiguration := fun _ _ _ => true

/-- A driver environment like envAll except that probeAfterOpening
always rejects the device. -/
def envReject : Env Unit :=
  { envAll with probeAfterOpening := fun _ _ => false }

/-- A one-entry configured devices array. -/
def cfgAll : List Unit := [()]

/-- A registry holding devices with handles 1, 2 and 3. -/
def devs123 : List USBDevice :=
  [⟨DriverKind.fc, 1⟩, ⟨DriverKind.fc, 2⟩, ⟨DriverKind.fc, 3⟩]

/-- Case analysis of usbDeviceArrived: the five source paths are no
recognized driver, open failure, post-open probe failure, first
configuration match, and no configuration match. -/
lemma arrived_spec {α : Type} (env : Env α) (cfg : List α) (devs : List USBDevice) (dv : Nat) :
    (probeKind env dv = none ∧ usbDeviceArrived env cfg devs dv = (devs, []))
    ∨ (∃ k, probeKind env dv = some k ∧ env.openRes k dv < 0 ∧
        usbDeviceArrived env cfg devs dv
          = (devs, [Event.constructed k dv, Event.destroyed dv]))
    ∨ (∃ k, probeKind env dv = some k ∧ ¬ env.openRes k dv < 0 ∧
        env.probeAfterOpening k dv = false ∧
        usbDeviceArrived env cfg devs dv
          = (devs, [Event.constructed k dv, Event.destroyed dv]))
    ∨ (∃ k i c, probeKind env dv = some k ∧ ¬ env.openRes k dv < 0 ∧
        env.probeAfterOpening k dv = true ∧
        (scanConfigs (env.matchConfiguration k dv) cfg 0).1 = some (i, c) ∧
        usbDeviceArrived env cfg devs dv
          = (devs ++ [⟨k, dv⟩],
             Event.constructed k dv
               :: ((scanConfigs (env.matchConfiguration k dv) cfg 0).2.map Event.consulted
                   ++ [Event.colorCorrected dv, Event.registered dv])))
    ∨ (∃ k, probeKind env dv = some k ∧ ¬ env.openRes k dv < 0 ∧
        env.probeAfterOpening k dv = true ∧
        (scanConfigs (env.matchConfiguration k dv) cfg 0).1 = none ∧
        usbDeviceArrived env cfg devs dv
          = (devs,
             Event.constructed k dv
               :: ((scanConfigs (env.matchConfiguration k dv) cfg 0).2.map Event.consulted
                   ++ [Event.destroyed dv]))) := by
  cases hk : probeKind env dv with
  | none =>
      left
      exact ⟨rfl, by simp [usbDeviceArrived, hk]⟩
  | some k =>
      by_cases ho : env.openRes k dv < 0
      · right; left
        exact ⟨k, rfl, ho, by simp [usbDeviceArrived, hk, ho]⟩
      · by_cases hp : env.probeAfterOpening k dv = true
        · cases hsc : (scanConfigs (env.matchConfiguration k dv) cfg 0).1 with
          | none =>
              right; right; right; right
              exact ⟨k, rfl, ho, hp, hsc, by simp [usbDeviceArrived, hk, ho, hp, hsc]⟩
          | some ic =>
              right; right; right; left
              exact ⟨k, ic.1, ic.2, rfl, ho, hp, by simpa using hsc,
                by simp [usbDeviceArrived, hk, ho, hp, hsc]⟩
        · right; right; left
          exact ⟨k, rfl, ho, by simpa using hp, by simp [usbDeviceArrived, hk, ho, hp]⟩

/-- A first component returned by the configuration scan is an entry of
the array that the predicate accepts. -/
lemma scan_some_mem {α : Type} (p : α → Bool) :
    ∀ (cfg : List α) (s i : Nat) (c : α),
      (scanConfigs p cfg s).1 = some (i, c) → c ∈ cfg ∧ p c = true := by
  intro cfg
  induction cfg with
  | nil => intro s i c h; simp [scanConfigs] at h
  | cons d rest ih =>
      intro s i c h
      by_cases hd : p d
      · simp [scanConfigs, hd] at h
        rcases h with ⟨-, rfl⟩
        exact ⟨List.mem_cons_self d rest, hd⟩
      · simp only [scanConfigs, hd, if_false, Bool.false_eq_true] at h
        rcases ih (s + 1) i c h with ⟨hm, hpc⟩
        exact ⟨List.mem_cons_of_mem d hm, hpc⟩

/-- The configuration scan stops at the first accepted entry: when entry
i is accepted and every earlier entry is refused, the scan starting at
base index s assigns entry i and consults exactly the entries up to i. -/
lemma scanConfigs_first {α : Type} (p : α → Bool) :
    ∀ (cfg : List α) (s i : Nat) (c : α),
      cfg[i]? = some c → p c = true →
      (∀ j c2, j < i → cfg[j]? = some c2 → p c2 = false) →
      scanConfigs p cfg s = (some (s + i, c), (List.range (i + 1)).map (fun j => s + j)) := by
  intro cfg
  induction cfg with
  | nil => intro s i c hget; simp at hget
  | cons d rest ih =>
      intro s i c hget hpc hprev
      cases i with
      | zero =>
          rw [List.getElem?_cons_zero] at hget
          cases hget
          simp [scanConfigs, hpc, List.range_succ]
      | succ n =>
          have hd : p d = false := hprev 0 d (Nat.succ_pos n) List.getElem?_cons_zero
          rw [List.getElem?_cons_succ] at hget
          have hprev2 : ∀ j c2, j < n → rest[j]? = some c2 → p c2 = false := by
            intro j c2 hj hg
            exact hprev (j + 1) c2 (Nat.succ_lt_succ hj) (by rw [List.getElem?_cons_succ]; exact hg)
          have hrec := ih (s + 1) n c hget hpc hprev2
          simp only [scanConfigs, hd, Bool.false_eq_true, if_false, hrec]
          rw [Prod.mk.injEq]
          constructor
          · simp only [Option.some.injEq, Prod.mk.injEq, and_true]
            omega
          · conv_rhs => rw [List.range_succ_eq_map]
            simp only [List.map_cons, Nat.add_zero, List.map_map]
            congr 1
            apply List.map_congr_left
            intro a _
            simp only [Function.comp_apply]
            omega

/-- usbDeviceLeft is a no-op when no registered device has the handle. -/
lemma left_of_not_mem (devs : List USBDevice) (hnd : Nat)
    (h : hnd ∉ devs.map USBDevice.handle) : usbDeviceLeft devs hnd = (devs, []) := by
  induction devs with
  | nil => rfl
  | cons d rest ih =>
      simp only [List.map_cons, List.mem_cons, not_or] at h
      have hd : ¬ d.handle = hnd := fun he => h.1 he.symm
      simp [usbDeviceLeft, hd, ih h.2]

/-- usbDeviceLeft erases and destroys exactly the first registered
device with the handle, leaving every other entry in place. -/
lemma left_first (pre post : List USBDevice) (d : USBDevice) (hnd : Nat)
    (hp : ∀ d2 ∈ pre, d2.handle ≠ hnd) (hd : d.handle = hnd) :
    usbDeviceLeft (pre ++ d :: post) hnd = (pre ++ post, [Event.destroyed hnd]) := by
  induction pre with
  | nil => simp [usbDeviceLeft, hd]
  | cons a pre ih =>
      have ha : ¬ a.handle = hnd := hp a (List.mem_cons_self a pre)
      have ih2 := ih (fun d2 hm => hp d2 (List.mem_cons_of_mem a hm))
      simp [usbDeviceLeft, ha, ih2]

/-- A registry containing the handle splits at the first entry carrying
it. -/
lemma exists_first_with_handle (devs : List USBDevice) (hnd : Nat)
    (h : hnd ∈ devs.map USBDevice.handle) :
    ∃ pre d post, devs = pre ++ d :: post ∧ d.handle = hnd ∧
      ∀ d2 ∈ pre, d2.handle ≠ hnd := by
  induction devs with
  | nil => simp at h
  | cons a rest ih =>
      by_cases ha : a.handle = hnd
      · exact ⟨[], a, rest, rfl, ha, by simp⟩
      · have h2 : hnd ∈ rest.map USBDevice.handle := by
          simp only [List.map_cons, List.mem_cons] at h
          rcases h with he | hm
          · exact absurd he.symm ha
          · exact hm
        rcases ih h2 with ⟨pre, d, post, hdec, hh, hpre⟩
        refine ⟨a :: pre, d, post, by rw [hdec]; rfl, hh, ?_⟩
        intro d2 hm
        rcases List.mem_cons.mp hm with rfl | hm2
        · exact ha
        · exact hpre d2 hm2

/-- The registry after usbDeviceLeft is a sublist of the registry before. -/
lemma left_sublist (devs : List USBDevice) (hnd : Nat) :
    List.Sublist (usbDeviceLeft devs hnd).1 devs := by
  induction devs with
  | nil => simp [usbDeviceLeft]
  | cons d rest ih =>
      by_cases hd : d.handle = hnd
      · simp only [usbDeviceLeft, hd, if_true]
        exact List.Sublist.cons d (List.Sublist.refl rest)
      · simp only [usbDeviceLeft, hd, if_false]
        exact List.Sublist.cons₂ d ih

/-- Appending a fresh handle keeps the handle list duplicate free. -/
lemma nodup_append_fresh {l : List Nat} {x : Nat} (h : x ∉ l) (hn : l.Nodup) :
    (l ++ [x]).Nodup := by
  rw [List.nodup_append]
  exact ⟨hn, List.nodup_singleton x, by simpa using h⟩

/-- usbDeviceArrived either leaves the registry unchanged or appends a
single device whose getDevice() is the probed handle. -/
lemma arrived_fst (env : Env α) (cfg : List α) (devs : List USBDevice) (dv : Nat) :
    (usbDeviceArrived env cfg devs dv).1 = devs
    ∨ ∃ k, (usbDeviceArrived env cfg devs dv).1 = devs ++ [⟨k, dv⟩] := by
  rcases arrived_spec env cfg devs dv with ⟨-, he⟩ | ⟨k, -, -, he⟩ | ⟨k, -, -, -, he⟩
    | ⟨k, i, c, -, -, -, -, he⟩ | ⟨k, -, -, -, -, he⟩
  · exact Or.inl (by rw [he])
  · exact Or.inl (by rw [he])
  · exact Or.inl (by rw [he])
  · exact Or.inr ⟨k, by rw [he]⟩
  · exact Or.inl (by rw [he])

/-- An arrival for a handle that is not currently registered preserves
distinctness of the registered handles. -/
lemma arrived_nodup (env : Env α) (cfg : List α) (devs : List USBDevice) (dv : Nat)
    (hn : (devs.map USBDevice.handle).Nodup) (hm : dv ∉ devs.map USBDevice.handle) :
    ((usbDeviceArrived env cfg devs dv).1.map USBDevice.handle).Nodup := by
  rcases arrived_fst env cfg devs dv with he | ⟨k, he⟩
  · rw [he]; exact hn
  · rw [he, List.map_append]
    exact nodup_append_fresh hm hn

/-- The added-devices loop of the poll only hands handles that are not
currently registered to usbDeviceArrived, so it preserves distinctness
of the registered handles. -/
lemma pollAttach_nodup (env : Env α) (cfg : List α) :
    ∀ (l : List Nat) (devs : List USBDevice),
      (devs.map USBDevice.handle).Nodup →
      ((pollAttach env cfg devs l).1.map USBDevice.handle).Nodup := by
  intro l
  induction l with
  | nil => intro devs hn; simpa [pollAttach] using hn
  | cons h rest ih =>
      intro devs hn
      by_cases hnew : devs.all (fun d => d.handle != h) = true
      · have hm : h ∉ devs.map USBDevice.handle := by
          simp only [List.all_eq_true, bne_iff_ne, ne_eq] at hnew
          simp only [List.mem_map, not_exists, not_and]
          intro d hd hdh
          exact hnew d hd hdh
        simp only [pollAttach, hnew, if_true]
        exact ih (usbDeviceArrived env cfg devs h).1 (arrived_nodup env cfg devs h hn hm)
      · have hf : devs.all (fun d => d.handle != h) = false :=
          Bool.eq_false_iff.mpr hnew
        simp only [pollAttach, hf, Bool.false_eq_true, if_false]
        exact ih devs hn

/-- When the removed-devices loop completes without an out-of-bounds
access, the resulting registry is a sublist of the registry it started
from. -/
lemma pollRemove_sublist (enumL : List Nat) :
    ∀ (fuel : Nat) (devs : List USBDevice) (i : Nat) (devs2 : List USBDevice),
      (pollRemove enumL fuel devs i).1 = some devs2 → List.Sublist devs2 devs := by
  intro fuel
  induction fuel with
  | zero =>
      intro devs i devs2 h
      simp only [pollRemove, Option.some.injEq] at h
      rw [← h]
  | succ fuel ih =>
      intro devs i devs2 h
      cases hg : devs[i]? with
      | none => simp [pollRemove, hg] at h
      | some d =>
          by_cases hr : enumL.all (fun x => x != d.handle) = true
          · simp only [pollRemove, hg, hr, if_true] at h
            exact (ih (devs.eraseIdx i) (i + 1) devs2 h).trans (List.eraseIdx_sublist devs i)
          · have hf : enumL.all (fun x => x != d.handle) = false :=
              Bool.eq_false_iff.mpr hr
            simp only [pollRemove, hg, hf, Bool.false_eq_true, if_false] at h
            exact ih devs (i + 1) devs2 h

/-- A poll step whose enumeration succeeded never reports an
enumeration failure. -/
lemma poll_some_ne_enumFail (env : Env α) (cfg : List α) (devs : List USBDevice)
    (l : List Nat) :
    usbHotplugPoll env cfg devs (some l) ≠ PollOutcome.enumFail := by
  simp only [usbHotplugPoll]
  rcases hrem : pollRemove l (pollAttach env cfg devs l).1.length (pollAttach env cfg devs l).1 0
    with ⟨o, tr⟩
  cases o <;> simp

/-- The poll thread reaches the terminated state only when one of the
supplied enumeration outcomes is a failure. -/
lemma thread_terminated_mem (env : Env α) (cfg : List α) :
    ∀ (es : List (Option (List Nat))) (devs d : List USBDevice),
      usbHotplugThreadFunc env cfg es devs = ThreadResult.terminated d → none ∈ es := by
  intro es
  induction es with
  | nil => intro devs d h; simp [usbHotplugThreadFunc] at h
  | cons e rest ih =>
      intro devs d h
      cases e with
      | none => exact List.mem_cons_self none rest
      | some l =>
          revert h
          simp only [usbHotplugThreadFunc]
          cases hp : usbHotplugPoll env cfg devs (some l) with
          | enumFail => exact absurd hp (poll_some_ne_enumFail env cfg devs l)
          | ok devs2 tr =>
              intro h
              exact List.mem_cons_of_mem (some l) (ih devs2 d h)
          | undef tr => intro h; cases h

/-- C1 counterexample: the claim quantifies over every sequence of
attach and detach operations, but usbDeviceArrived performs no duplicate
check, so a second arrival event for an already registered handle
appends a second entry with the same native handle. -/
theorem duplicate_arrival_creates_duplicate :
    runOps envAll cfgAll [Op.arrive 1, Op.arrive 1] []
      = some [⟨DriverKind.fc, 1⟩, ⟨DriverKind.fc, 1⟩]
    ∧ ¬ (([⟨DriverKind.fc, 1⟩, ⟨DriverKind.fc, 1⟩] : List USBDevice).map
          USBDevice.handle).Nodup := by
  constructor
  · rfl
  · decide

/-- C1 (amended): for every sequence of arrival events whose handle is
not currently registered, left events, and poll steps that complete
without an out-of-bounds access, the registry never contains two entries
whose getDevice() returns the same native handle. -/
theorem registry_nodup_of_guarded {α : Type} (env : Env α) (cfg : List α)
    (devs : List USBDevice) (hr : ReachG env cfg devs) :
    (devs.map USBDevice.handle).Nodup := by
  induction hr with
  | nil => simp
  | arrive devs0 h0 _ hmem ih => exact arrived_nodup env cfg devs0 h0 ih hmem
  | leave devs0 h0 _ ih =>
      exact List.Nodup.sublist (List.Sublist.map USBDevice.handle (left_sublist devs0 h0)) ih
  | poll devs0 devs2 tr e _ hpoll ih =>
      cases e with
      | none => simp [usbHotplugPoll] at hpoll
      | some l =>
          revert hpoll
          simp only [usbHotplugPoll]
          rcases hrem : pollRemove l (pollAttach env cfg devs0 l).1.length
              (pollAttach env cfg devs0 l).1 0 with ⟨o, tr2⟩
          cases o with
          | none => intro hpoll; cases hpoll
          | some d2 =>
              intro hpoll
              have hd2 : d2 = devs2 := by
                cases hpoll
                rfl
              subst hd2
              have hsub : List.Sublist d2 (pollAttach env cfg devs0 l).1 :=
                pollRemove_sublist l (pollAttach env cfg devs0 l).1.length
                  (pollAttach env cfg devs0 l).1 0 d2 (by rw [hrem])
              exact List.Nodup.sublist (List.Sublist.map USBDevice.handle hsub)
                (pollAttach_nodup env cfg l devs0 ih)

/-- C1 witness: a guarded arrival starting from the empty registry
leaves the registered handles duplicate free. -/
theorem registry_nodup_of_guarded_witness :
    (((usbDeviceArrived envAll cfgAll [] 1).1).map USBDevice.handle).Nodup :=
  registry_nodup_of_guarded envAll cfgAll _
    (ReachG.arrive [] 1 ReachG.nil (by simp))

/-- C2: a device is appended to the registry only when a driver probe
accepted it, open() returned a non-negative result, probeAfterOpening()
returned true, and some configured entry made matchConfiguration return
true; and then the appended entry is exactly the probed device. -/
theorem registered_only_if_checks_pass {α : Type} (env : Env α) (cfg : List α)
    (devs : List USBDevice) (dv : Nat)
    (hne : (usbDeviceArrived env cfg devs dv).1 ≠ devs) :
    ∃ k, probeKind env dv = some k
      ∧ 0 ≤ env.openRes k dv
      ∧ env.probeAfterOpening k dv = true
      ∧ (∃ c, c ∈ cfg ∧ env.matchConfiguration k dv c = true)
      ∧ (usbDeviceArrived env cfg devs dv).1 = devs ++ [⟨k, dv⟩] := by
  rcases arrived_spec env cfg devs dv with ⟨-, he⟩ | ⟨k, -, -, he⟩ | ⟨k, -, -, -, he⟩
    | ⟨k, i, c, hk, ho, hp, hsc, he⟩ | ⟨k, -, -, -, -, he⟩
  · exact absurd (by rw [he]) hne
  · exact absurd (by rw [he]) hne
  · exact absurd (by rw [he]) hne
  · rcases scan_some_mem (env.matchConfiguration k dv) cfg 0 i c hsc with ⟨hm, hmc⟩
    exact ⟨k, hk, not_lt.mp ho, hp, ⟨c, hm, hmc⟩, by rw [he]⟩
  · exact absurd (by rw [he]) hne

/-- C2 witness: in the all-accepting environment, handle 1 is appended
and every check passed. -/
theorem registered_only_if_checks_pass_witness :
    ∃ k, probeKind envAll 1 = some k
      ∧ 0 ≤ envAll.openRes k 1
      ∧ envAll.probeAfterOpening k 1 = true
      ∧ (∃ c, c ∈ cfgAll ∧ envAll.matchConfiguration k 1 c = true)
      ∧ (usbDeviceArrived envAll cfgAll [] 1).1 = [] ++ [⟨k, 1⟩] :=
  registered_only_if_checks_pass envAll cfgAll [] 1 (by decide)

/-- C3: configuration matching is strictly first-match in declaration
order: when entry i is accepted and every earlier entry is refused, the
scan assigns entry i and consults exactly the entries 0 to i, so entries
after i are not consulted; and for a two-entry array where both entries
match, the scan assigns the entry in first position, whichever order the
array is given in. -/
theorem first_match_policy {α : Type} (p : α → Bool) :
    (∀ (cfg : List α) (i : Nat) (c : α),
      cfg[i]? = some c → p c = true →
      (∀ j c2, j < i → cfg[j]? = some c2 → p c2 = false) →
      scanConfigs p cfg 0 = (some (i, c), List.range (i + 1)))
    ∧ (∀ a b : α, p a = true → p b = true →
        (scanConfigs p [a, b] 0).1 = some (0, a)
        ∧ (scanConfigs p [b, a] 0).1 = some (0, b)) := by
  constructor
  · intro cfg i c hget hpc hprev
    have h := scanConfigs_first p cfg 0 i c hget hpc hprev
    rw [h]
    simp
  · intro a b ha hb
    constructor
    · simp [scanConfigs, ha]
    · simp [scanConfigs, hb]

/-- C3 witness: a two-entry array with an always-true matcher assigns
index 0 and consults only index 0. -/
theorem first_match_policy_witness :
    scanConfigs (fun _ : Nat => true) [10, 20] 0 = (some (0, 10), List.range 1) :=
  (first_match_policy (fun _ : Nat => true)).1 [10, 20] 0 10 rfl rfl
    (fun j _ hj _ => absurd hj (Nat.not_lt_zero j))

/-- C5: every rejection path of the attach attempt leaves the registry
exactly as it was, and when a driver instance was constructed it is
destroyed. -/
theorem rejection_leaves_registry_unchanged {α : Type} (env : Env α) (cfg : List α)
    (devs : List USBDevice) (dv : Nat)
    (hrej : Event.registered dv ∉ (usbDeviceArrived env cfg devs dv).2) :
    (usbDeviceArrived env cfg devs dv).1 = devs
    ∧ (∀ k, Event.constructed k dv ∈ (usbDeviceArrived env cfg devs dv).2 →
        Event.destroyed dv ∈ (usbDeviceArrived env cfg devs dv).2) := by
  rcases arrived_spec env cfg devs dv with ⟨-, he⟩ | ⟨k, -, -, he⟩ | ⟨k, -, -, -, he⟩
    | ⟨k, i, c, -, -, -, -, he⟩ | ⟨k, -, -, -, -, he⟩
  · rw [he]
    exact ⟨rfl, by intro k hk; simp at hk⟩
  · rw [he]
    exact ⟨rfl, by intro k2 _; simp⟩
  · rw [he]
    exact ⟨rfl, by intro k2 _; simp⟩
  · rw [he] at hrej
    simp at hrej
  · rw [he]
    exact ⟨rfl, by intro k2 _; simp⟩

/-- C5 witness: a device rejected by probeAfterOpening leaves the empty
registry empty and its constructed driver instance is destroyed. -/
theorem rejection_leaves_registry_unchanged_witness :
    (usbDeviceArrived envReject cfgAll [] 1).1 = []
    ∧ (∀ k, Event.constructed k 1 ∈ (usbDeviceArrived envReject cfgAll [] 1).2 →
        Event.destroyed 1 ∈ (usbDeviceArrived envReject cfgAll [] 1).2) :=
  rejection_leaves_registry_unchanged envReject cfgAll [] 1 (by decide)

/-- C6: one broadcast writes the message to every registered device,
once each, in registration order, and writes nothing to a handle that is
not registered when the broadcast runs. -/
theorem broadcast_fanout (devs : List USBDevice) :
    cbMessage devs = devs.map (fun d => Event.wroteMessage d.handle)
    ∧ (cbMessage devs).length = devs.length
    ∧ (∀ hnd : Nat,
        Event.wroteMessage hnd ∈ cbMessage devs ↔ hnd ∈ devs.map USBDevice.handle) := by
  have hmap : cbMessage devs = devs.map (fun d => Event.wroteMessage d.handle) := by
    induction devs with
    | nil => rfl
    | cons d rest ih => simp [cbMessage, ih]
  refine ⟨hmap, by simp [hmap], ?_⟩
  intro hnd
  rw [hmap]
  simp [List.mem_map]

/-- C7: writeColorCorrection is invoked exactly once per successful
registration, immediately before the device is appended to the registry,
and a device whose attach attempt fails never receives it. -/
theorem color_correction_at_registration {α : Type} (env : Env α) (cfg : List α)
    (devs : List USBDevice) (dv : Nat) :
    ((usbDeviceArrived env cfg devs dv).1 ≠ devs →
      ∃ pre, (usbDeviceArrived env cfg devs dv).2
          = pre ++ [Event.colorCorrected dv, Event.registered dv]
        ∧ Event.colorCorrected dv ∉ pre)
    ∧ ((usbDeviceArrived env cfg devs dv).1 = devs →
        Event.colorCorrected dv ∉ (usbDeviceArrived env cfg devs dv).2) := by
  rcases arrived_spec env cfg devs dv with ⟨-, he⟩ | ⟨k, -, -, he⟩ | ⟨k, -, -, -, he⟩
    | ⟨k, i, c, -, -, -, -, he⟩ | ⟨k, -, -, -, -, he⟩
  · rw [he]
    exact ⟨fun hne => absurd rfl hne, fun _ => by simp⟩
  · rw [he]
    exact ⟨fun hne => absurd rfl hne, fun _ => by simp⟩
  · rw [he]
    exact ⟨fun hne => absurd rfl hne, fun _ => by simp⟩
  · rw [he]
    constructor
    · intro _
      refine ⟨Event.constructed k dv
        :: (scanConfigs (env.matchConfiguration k dv) cfg 0).2.map Event.consulted, ?_, ?_⟩
      · simp
      · simp
    · intro hfst
      exact absurd hfst (by simp)
  · rw [he]
    exact ⟨fun hne => absurd rfl hne, fun _ => by simp⟩

/-- C7 witness: a successful registration in the all-accepting
environment has its color correction written immediately before the
registration event. -/
theorem color_correction_at_registration_witness :
    ∃ pre, (usbDeviceArrived envAll cfgAll [] 1).2
        = pre ++ [Event.colorCorrected 1, Event.registered 1]
      ∧ Event.colorCorrected 1 ∉ pre :=
  (color_correction_at_registration envAll cfgAll [] 1).1 (by decide)

/-- C4: with registered handles 1, 2 and 3 and an enumeration returning
2, 3 and 4, the poll step invokes usbDeviceArrived exactly for handle 4
and usbDeviceLeft exactly for handle 1, but then the removal loop keeps
iterating to the end iterator captured before the erase and reads one
slot past the shrunk vector: an out-of-bounds access, so the step never
cleanly reaches the state with handles 2, 3 and 4. -/
theorem poll_diff_hits_out_of_bounds :
    usbHotplugPoll envAll cfgAll devs123 (some [2, 3, 4])
      = PollOutcome.undef
          [Event.arrivedCall 4, Event.constructed DriverKind.fc 4, Event.consulted 0,
           Event.colorCorrected 4, Event.registered 4,
           Event.leftCall 1, Event.destroyed 1] := by
  decide

/-- C8: detaching a handle removes and destroys the first registered
device carrying it, and is a no-op that destroys nothing when no
registered device carries it. -/
theorem detach_found_or_noop (devs : List USBDevice) (hnd : Nat) :
    (hnd ∉ devs.map USBDevice.handle → usbDeviceLeft devs hnd = (devs, []))
    ∧ (hnd ∈ devs.map USBDevice.handle →
        ∃ pre d post, devs = pre ++ d :: post ∧ d.handle = hnd
          ∧ (∀ d2 ∈ pre, d2.handle ≠ hnd)
          ∧ usbDeviceLeft devs hnd = (pre ++ post, [Event.destroyed hnd])) := by
  constructor
  · exact left_of_not_mem devs hnd
  · intro hm
    rcases exists_first_with_handle devs hnd hm with ⟨pre, d, post, hdec, hd, hpre⟩
    subst hdec
    exact ⟨pre, d, post, rfl, hd, hpre, left_first pre post d hnd hpre hd⟩

/-- C8 witness: detaching an absent handle leaves a one-device registry
unchanged and destroys nothing. -/
theorem detach_found_or_noop_witness :
    usbDeviceLeft [(⟨DriverKind.fc, 2⟩ : USBDevice)] 1 = ([⟨DriverKind.fc, 2⟩], []) :=
  (detach_found_or_noop [⟨DriverKind.fc, 2⟩] 1).1 (by decide)

/-- C9: the poll thread loop reaches its terminated state only when
some enumeration outcome is a failure; an enumeration failure at the
head terminates it at once; a poll step reports an enumeration failure
exactly when libusb_get_device_list returned a negative size; and after
every poll step that returns true the loop continues with the next
iteration. -/
theorem poll_loop_terminates_iff_enum_fails {α : Type} (env : Env α) (cfg : List α)
    (es : List (Option (List Nat))) (devs : List USBDevice) :
    ((∃ d, usbHotplugThreadFunc env cfg es devs = ThreadResult.terminated d) → none ∈ es)
    ∧ (∀ rest, es = none :: rest →
        usbHotplugThreadFunc env cfg es devs = ThreadResult.terminated devs)
    ∧ (∀ e rest, es = e :: rest →
        (usbHotplugPoll env cfg devs e = PollOutcome.enumFail ↔ e = none))
    ∧ (∀ e rest devs2 tr, es = e :: rest →
        usbHotplugPoll env cfg devs e = PollOutcome.ok devs2 tr →
        usbHotplugThreadFunc env cfg es devs = usbHotplugThreadFunc env cfg rest devs2) := by
  refine ⟨?_, ?_, ?_, ?_⟩
  · rintro ⟨d, h⟩
    exact thread_terminated_mem env cfg es devs d h
  · rintro rest rfl
    simp [usbHotplugThreadFunc, usbHotplugPoll]
  · rintro e rest rfl
    cases e with
    | none => simp [usbHotplugPoll]
    | some l =>
        simp only [reduceCtorEq, iff_false]
        exact poll_some_ne_enumFail env cfg devs l
  · rintro e rest devs2 tr rfl hp
    simp [usbHotplugThreadFunc, hp]

/-- C9 witness: with a single failing enumeration the loop terminates
immediately. -/
theorem poll_loop_terminates_iff_enum_fails_witness :
    usbHotplugThreadFunc envAll cfgAll [none] [] = ThreadResult.terminated [] :=
  (poll_loop_terminates_iff_enum_fails envAll cfgAll [none] []).2.1 [] rfl

/-- C10: one detach call removes at most one registry entry: when the
registry splits as pre, a first entry with the handle, and post, only
that first entry is removed and destroyed, the entries of post,
including any later duplicates of the handle, remain registered, and the
length drops by exactly one. -/
theorem detach_removes_only_first (pre post : List USBDevice) (d : USBDevice) (hnd : Nat)
    (hp : ∀ d2 ∈ pre, d2.handle ≠ hnd) (hd : d.handle = hnd) :
    usbDeviceLeft (pre ++ d :: post) hnd = (pre ++ post, [Event.destroyed hnd])
    ∧ (pre ++ post).length + 1 = (pre ++ d :: post).length := by
  exact ⟨left_first pre post d hnd hp hd, by simp; omega⟩

/-- C10 witness: with two registered entries both carrying handle 1,
detaching handle 1 removes only the first and the duplicate remains. -/
theorem detach_removes_only_first_witness :
    usbDeviceLeft [(⟨DriverKind.fc, 1⟩ : USBDevice), ⟨DriverKind.fc, 1⟩] 1
        = ([⟨DriverKind.fc, 1⟩], [Event.destroyed 1])
    ∧ ([(⟨DriverKind.fc, 1⟩ : USBDevice)] : List USBDevice).length + 1
        = ([(⟨DriverKind.fc, 1⟩ : USBDevice), ⟨DriverKind.fc, 1⟩] : List USBDevice).length :=
  detach_removes_only_first [] [⟨DriverKind.fc, 1⟩] ⟨DriverKind.fc, 1⟩ 1
    (by simp) rfl

end FCServer
